import Mathlib

/-!
Verification of `qwatch.py`, a PBS queue watcher.

The development shallowly embeds the parts of the program the claims are
about:

* the XML document model used by `xml.dom.minidom` (element and text
  nodes, `nodeName`, `childNodes`, `getElementsByTagName`),
* `QWatchParser.parse` / `QWatchParser.parse_job` / `normalize_name`,
* the `Job` accessors `get_owner` and `get_memory` together with the
  Python string/int primitives they rely on (`str.find`, negative-index
  slicing, `int()`, `'%.1f'` formatting),
* `QWatch.get_jobs` (the current-user filter), and
* the controller loop (`mainloop`, `display_header`, `refresh_data`)
  as a state machine over an explicit state record, with the external
  `qstat` subprocess modelled as a nondeterministic environment input
  and `threading.Timer` handles modelled by a count of live timers plus
  a flag for the handle stored in `work_timer`.

Python exceptions are modelled with `Option`/`Except`: a `none`/`error`
result is a raised exception propagating out of the modelled function.
-/

namespace Qwatch

/-! ### The minidom document model

A parsed XML document is a tree of element nodes (tag plus list of
child nodes, in document order) and text nodes.  `nodeName` of a text
node is `"#text"` as in minidom; `childNodes` of a text node is empty. -/

inductive XNode where
  | text : String → XNode
  | elem : String → List XNode → XNode

def XNode.nodeName : XNode → String
  | .text _ => "#text"
  | .elem t _ => t

def XNode.childNodes : XNode → List XNode
  | .text _ => []
  | .elem _ cs => cs

/-- Values of the nested dictionary built by `parse_job`: either a leaf
string (a text node's `nodeValue`) or a nested dictionary. -/
inductive JobValue where
  | leaf : String → JobValue
  | nested : List (String × JobValue) → JobValue

/-- The nested dictionary produced by `parse_job` for one job: a key/value
mapping.  A Python `dict` is modelled as an association list whose update
operation replaces any previous binding of the key. -/
abbrev Dict := List (String × JobValue)

/-- Python `data[key] = v`: bind `key` to `v`, discarding any previous
binding of `key`. -/
def dinsert (d : Dict) (k : String) (v : JobValue) : Dict :=
  (k, v) :: d.filter (fun p => p.1 != k)

/-- Python `data[key]`: the value bound to `key`, if any. -/
def dlookup : Dict → String → Option JobValue
  | [], _ => none
  | (k, v) :: rest, key => if k = key then some v else dlookup rest key

/-- `QWatchParser.normalize_name`: `name.lower()`.  (ASCII
case-folding, which covers every tag name the PBS schema uses.) -/
def normalize_name (s : String) : String := String.mk (s.data.map Char.toLower)

/-! ### QWatchParser.parse_job

Source loop, for each `node` in `job_element.childNodes`:

* `key = normalize_name(node.nodeName)`;
* `node.childNodes[0]` is evaluated first — on a node with no child
  nodes this raises `IndexError` (modelled by `none`);
* if `node.childNodes[0]` is a text node, `data[key]` becomes that text
  node's `nodeValue` (further children of `node` are ignored);
* otherwise (`len(node.childNodes) > 0` necessarily holds here)
  `data[key]` becomes the recursive `parse_job(node)`. -/

mutual
def parse_job : XNode → Option Dict
  | XNode.text _ => some []
  | XNode.elem _ cs => parse_children [] cs

def parse_children : Dict → List XNode → Option Dict
  | d, [] => some d
  | d, n :: rest =>
    match n.childNodes with
    | [] => none
    | XNode.text s :: _ =>
        parse_children (dinsert d (normalize_name n.nodeName) (JobValue.leaf s)) rest
    | XNode.elem _ _ :: _ =>
        match parse_job n with
        | none => none
        | some sub =>
            parse_children (dinsert d (normalize_name n.nodeName) (JobValue.nested sub)) rest
end

/-- The value `parse_job` derives from one child `n` of a per-job
element: `none` when `n` has no child nodes (the `IndexError` case),
the first child's text when that first child is a text node, and the
recursive parse otherwise.  This is the per-iteration body of the
`parse_job` loop, split out so theorems can name it. -/
def child_value (n : XNode) : Option JobValue :=
  match n.childNodes with
  | [] => none
  | XNode.text s :: _ => some (JobValue.leaf s)
  | XNode.elem _ _ :: _ => (parse_job n).map JobValue.nested

/-! ### QWatchParser.parse -/

/-- minidom's element/tag test: element nodes with the given tag
(`node.nodeType == ELEMENT_NODE and node.tagName == name`, a
case-sensitive comparison). -/
def tag_matches (tag : String) : XNode → Bool
  | XNode.text _ => false
  | XNode.elem t _ => t == tag

mutual
/-- Descendant walk of one node for `getElementsByTagName` (the helper
recurses into every node's `childNodes`). -/
def elements_by_tag_in : String → XNode → List XNode
  | _, XNode.text _ => []
  | tag, XNode.elem _ cs => elements_by_tag tag cs

/-- minidom `getElementsByTagName` helper: walk a node list in document
order; each element node whose tag equals `tag` is collected, and the
walk recurses into every node's children (preorder). -/
def elements_by_tag (tag : String) : List XNode → List XNode
  | [] => []
  | n :: rest =>
      (if tag_matches tag n then [n] else [])
        ++ elements_by_tag_in tag n ++ elements_by_tag tag rest
end

/-- Sequencing of the `parse` loop: parse each per-job element in
order; a raised exception aborts the whole parse. -/
def optMapM {α β : Type} (f : α → Option β) : List α → Option (List β)
  | [] => some []
  | a :: as =>
    match f a with
    | none => none
    | some b =>
      match optMapM f as with
      | none => none
      | some bs => some (b :: bs)

/-- `QWatchParser.parse`: `doc.getElementsByTagName("Job")` on the
document whose single root element is `root`, then `parse_job` on each
match in document order.  Each resulting `Dict` is the payload of one
`Job` object. -/
def parse (root : XNode) : Option (List Dict) :=
  optMapM parse_job (elements_by_tag "Job" [root])

/-! ### Job accessors

`Job.d(path)` walks the dotted path through the nested dictionary;
a missing key (`KeyError`) or indexing into a leaf string (`TypeError`)
is a raised exception, modelled by `none`. -/

def job_d_walk : JobValue → List String → Option JobValue
  | v, [] => some v
  | JobValue.leaf _, _ :: _ => none
  | JobValue.nested d, seg :: rest =>
    match dlookup d seg with
    | none => none
    | some v => job_d_walk v rest

/-- `Job.d`: resolve a dotted path (given as its list of segments)
against the job's data dictionary. -/
def job_d (data : Dict) (path : List String) : Option JobValue :=
  job_d_walk (JobValue.nested data) path

/-- Python `s.find(c)`: index of the first occurrence, `-1` if absent. -/
def py_find (t : Char) : List Char → Int
  | [] => -1
  | c :: rest =>
      if c = t then 0
      else
        match py_find t rest with
        | r => if r < 0 then -1 else r + 1

/-- Python `s[:n]`: for `n ≥ 0` the first `n` characters, for `n < 0`
all but the last `-n` characters (empty when `-n` exceeds the length). -/
def py_slice_to (l : List Char) (n : Int) : List Char :=
  if n < 0 then l.take ((l.length : Int) + n).toNat else l.take n.toNat

/-- `Job.get_owner` applied to the raw `job_owner` string:
`o[:o.find('@')]`. -/
def format_owner (o : String) : String :=
  String.mk (py_slice_to o.data (py_find '@' o.data))

/-- `Job.get_owner`: look up `job_owner` and strip from the first `@`.
A missing field or a nested (non-string) value is a raised exception. -/
def get_owner (data : Dict) : Option String :=
  match job_d data ["job_owner"] with
  | some (JobValue.leaf s) => some (format_owner s)
  | _ => none

/-- Python `int(s)` restricted to unsigned digit strings, which is the
shape of every `mem` value PBS emits; any other shape is a raised
`ValueError` (`none`). -/
def py_int_digits (l : List Char) : Option Nat :=
  if l = [] then none
  else if l.all (fun c => c.isDigit) then
    some (l.foldl (fun a c => a * 10 + (c.toNat - 48)) 0)
  else none

/-- Round-half-even of the rational `p / q` to the nearest integer,
matching C `printf` rounding of an exactly representable double.  The
doubles produced by `get_memory` are `mem / 1024.` and
`mem / (1024. * 1024.)`, which are exact for `mem < 2^53`, so `'%.1f'`
formats exactly the rounded decimal computed here. -/
def round_half_even (p q : Nat) : Nat :=
  if 2 * (p % q) < q then p / q
  else if q < 2 * (p % q) then p / q + 1
  else if (p / q) % 2 = 0 then p / q else p / q + 1

/-- `'%.1f' % (p / q)` for the exact nonnegative rational `p / q`:
the tenths digit obtained by round-half-even on `10 * p / q`. -/
def fmt_one_decimal (p q : Nat) : String :=
  toString (round_half_even (10 * p) q / 10) ++ "."
    ++ toString (round_half_even (10 * p) q % 10)

/-- The formatting body of `Job.get_memory` applied to the raw
`resources_used.mem` string: `mem = int(raw[:-2])`, then GB when
`mem > 1024 * 1024`, MB when `mem > 1024`, and otherwise the kB branch —
which also divides by `1024.` before formatting. -/
def format_memory (raw : String) : Option String :=
  match py_int_digits (py_slice_to raw.data (-2)) with
  | none => none
  | some mem =>
    if 1024 * 1024 < mem then some (fmt_one_decimal mem (1024 * 1024) ++ " GB")
    else if 1024 < mem then some (fmt_one_decimal mem 1024 ++ " MB")
    else some (fmt_one_decimal mem 1024 ++ " kB")

/-- `Job.get_memory`: look up `resources_used.mem` and format it. -/
def get_memory (data : Dict) : Option String :=
  match job_d data ["resources_used", "mem"] with
  | some (JobValue.leaf s) => format_memory s
  | _ => none

/-! ### QWatch.get_jobs

`for j in self.jobs: if not self.settings_own or j.owner == user: append`.
The `or` short-circuits: with the filter off the owner accessor is never
evaluated; with it on, a job whose owner lookup raises propagates the
exception. -/

def get_jobs (own : Bool) (user : String) : List Dict → Option (List Dict)
  | [] => some []
  | j :: rest =>
    if own = false then
      match get_jobs own user rest with
      | none => none
      | some l => some (j :: l)
    else
      match get_owner j with
      | none => none
      | some o =>
          if o = user then
            match get_jobs own user rest with
            | none => none
            | some l => some (j :: l)
          else get_jobs own user rest

/-! ### The QWatch controller

State of a `QWatch` instance together with the timer bookkeeping needed
to reason about scheduled refreshes:

* `jobs`, `settings_own`, `settings_auto_refresh` are the instance
  attributes (each job stored as its data dictionary);
* `pendingTimers` counts every `threading.Timer` that has been started
  and has neither fired nor been cancelled (so "one scheduled refresh
  outstanding" is a provable property, not a modelling artifact);
* `handlePending` records whether the timer currently referenced by
  `self.work_timer` is still pending (`Timer.cancel` only has an effect
  on such a timer);
* `running` is false once `mainloop` has broken out on `q`;
* `pollCount` counts invocations of the external `qstat` subprocess.

Terminal rendering (`curses`) is an external capability surface and is
not modelled.  One refresh cycle's interaction with the outside world is
summarised by an environment value `env : Option XNode`: `some root`
when the subprocess produced a well-formed document with root element
`root`, `none` when the subprocess could not be started, exited without
usable output, or produced a non-well-formed document
(`minidom.parseString` raised). -/

structure QState where
  jobs : List Dict
  settings_own : Bool
  settings_auto_refresh : Bool
  pendingTimers : Nat
  handlePending : Bool
  running : Bool
  pollCount : Nat

/-- The state built by `QWatch.__init__`. -/
def init_state : QState :=
  { jobs := [], settings_own := false, settings_auto_refresh := true,
    pendingTimers := 0, handlePending := false, running := true, pollCount := 0 }

/-- `if self.work_timer: self.work_timer.cancel()`: cancelling the
handle's timer removes it from the pending set only if it has neither
fired nor been cancelled already. -/
def cancel_work_timer (s : QState) : QState :=
  if s.handlePending then
    { s with pendingTimers := s.pendingTimers - 1, handlePending := false }
  else s

/-- `self.work_timer = threading.Timer(2.0, self.refresh_data);
self.work_timer.start()`: a fresh pending timer becomes the handle. -/
def arm_timer (s : QState) : QState :=
  { s with pendingTimers := s.pendingTimers + 1, handlePending := true }

/-- `QWatch.refresh_data`: re-arm the timer first when auto-refresh is
enabled, then run the subprocess and parse; on success `self.jobs` is
replaced wholesale, on failure the exception propagates (`Except.error`
carries the state at the raise point — in particular `jobs` was not
assigned). -/
def refresh_data (s : QState) (env : Option XNode) : Except QState QState :=
  match env, (if s.settings_auto_refresh then arm_timer s else s) with
  | none, s1 => Except.error { s1 with pollCount := s1.pollCount + 1 }
  | some root, s1 =>
    match parse root with
    | none => Except.error { s1 with pollCount := s1.pollCount + 1 }
    | some js => Except.ok { s1 with pollCount := s1.pollCount + 1, jobs := js }

/-- `QWatch.display_header` (its state-relevant tail): cancel the
pending timer if any, then `refresh_data`.  Header drawing itself only
touches the screen. -/
def display_header (s : QState) (env : Option XNode) : Except QState QState :=
  refresh_data (cancel_work_timer s) env

/-- The controller state after a call, whether it returned or raised. -/
def except_state : Except QState QState → QState
  | Except.ok s => s
  | Except.error s => s

/-- Events the controller reacts to: the four recognised keys, the
firing of the timer referenced by `work_timer`, and the firing of a
timer no longer referenced by `work_timer` (possible a priori if a live
timer were ever overwritten; the reachability invariant shows it is
not). -/
inductive Ev where
  | keyA | keyU | keyR | keyQ | fireHandle | fireOrphan

/-- Guard of each event: keys are read only while `mainloop` runs; a
timer can fire only while it is pending. -/
def event_enabled : Ev → QState → Bool
  | Ev.keyA, s => s.running
  | Ev.keyU, s => s.running
  | Ev.keyR, s => s.running
  | Ev.keyQ, s => s.running
  | Ev.fireHandle, s => s.handlePending
  | Ev.fireOrphan, s => decide ((if s.handlePending then 1 else 0) < s.pendingTimers)

/-- One atomic controller step, from `QWatch.mainloop` and the timer
callback.  `a`/`u` toggle their flag and call `display_header`; `r`
calls `display_header`; `q` cancels the handle's timer and leaves the
loop; a firing timer leaves the pending set and runs `refresh_data`. -/
def handle_event : Ev → Option XNode → QState → QState
  | Ev.keyA, env, s =>
      except_state (display_header
        { s with settings_auto_refresh := !s.settings_auto_refresh } env)
  | Ev.keyU, env, s =>
      except_state (display_header { s with settings_own := !s.settings_own } env)
  | Ev.keyR, env, s => except_state (display_header s env)
  | Ev.keyQ, _, s => { cancel_work_timer s with running := false }
  | Ev.fireHandle, env, s =>
      except_state (refresh_data
        { s with pendingTimers := s.pendingTimers - 1, handlePending := false } env)
  | Ev.fireOrphan, env, s =>
      except_state (refresh_data { s with pendingTimers := s.pendingTimers - 1 } env)

/-- Reachable controller states: the state after startup
(`__init__` followed by the `display_header` call opening `mainloop`),
closed under enabled events, with the subprocess outcome `env`
arbitrary at every step. -/
inductive Reachable : QState → Prop where
  | startup (env : Option XNode) :
      Reachable (except_state (display_header init_state env))
  | step {s : QState} (ev : Ev) (env : Option XNode) :
      Reachable s → event_enabled ev s = true → Reachable (handle_event ev env s)

/-! ### Dictionary lemmas -/

theorem dlookup_dinsert_self (d : Dict) (k : String) (v : JobValue) :
    dlookup (dinsert d k v) k = some v := by
  simp [dinsert, dlookup]

theorem dlookup_filter_ne (d : Dict) (k key : String) (h : key ≠ k) :
    dlookup (d.filter (fun p => p.1 != k)) key = dlookup d key := by
  induction d with
  | nil => rfl
  | cons p rest ih =>
    cases p with
    | mk a b =>
      by_cases hp : a = k
      · have hc : ((a, b).1 != k) = false := by simp [hp]
        rw [List.filter_cons, hc]
        simp only [Bool.false_eq_true, if_false]
        rw [ih]
        have hak : ¬(a = key) := fun hak => h (hak ▸ hp)
        simp [dlookup, hak]
      · have hc : ((a, b).1 != k) = true := by simp [hp]
        rw [List.filter_cons, hc]
        simp only [if_true]
        simp only [dlookup]
        rw [ih]

theorem dlookup_dinsert_ne (d : Dict) (k key : String) (v : JobValue) (h : key ≠ k) :
    dlookup (dinsert d k v) key = dlookup d key := by
  have hk : ¬(k = key) := fun hk => h hk.symm
  simp only [dinsert, dlookup, if_neg hk]
  exact dlookup_filter_ne d k key h

/-! ### Parser lemmas -/

/-- The step the `parse_job` loop takes for the first remaining child,
phrased through `child_value`. -/
theorem parse_children_cons (d : Dict) (n : XNode) (rest : List XNode) :
    parse_children d (n :: rest) =
      match child_value n with
      | none => none
      | some v => parse_children (dinsert d (normalize_name n.nodeName) v) rest := by
  rw [parse_children, child_value]
  cases hn : n.childNodes with
  | nil => rfl
  | cons c crest =>
    cases c with
    | text s => rfl
    | elem t2 cs2 =>
      cases parse_job n <;> rfl

/-- Last one wins: after a successful `parse_children` run the binding
of `k` comes from the last child whose normalised tag is `k`, and when
no child has tag `k` the accumulator's binding survives. -/
theorem parse_children_lookup (k : String) (cs : List XNode) :
    ∀ d d' : Dict, parse_children d cs = some d' →
      dlookup d' k =
        match (cs.filter (fun m => normalize_name m.nodeName == k)).getLast? with
        | some m => child_value m
        | none => dlookup d k := by
  induction cs with
  | nil =>
    intro d d' h
    rw [parse_children] at h
    cases h
    rfl
  | cons n rest ih =>
    intro d d' h
    rw [parse_children_cons] at h
    cases hcv : child_value n with
    | none => rw [hcv] at h; cases h
    | some v =>
      rw [hcv] at h
      have hrec := ih _ _ h
      by_cases hk : normalize_name n.nodeName = k
      · have hbeq : (normalize_name n.nodeName == k) = true := by simp [hk]
        rw [List.filter_cons, hbeq]
        simp only [if_true]
        cases hl : rest.filter (fun m => normalize_name m.nodeName == k) with
        | nil =>
          rw [hl] at hrec
          simp only [List.getLast?_nil] at hrec
          have hself : dlookup (dinsert d (normalize_name n.nodeName) v) k = some v := by
            rw [hk]
            exact dlookup_dinsert_self d k v
          have h1 : (([n] : List XNode)).getLast? = some n := rfl
          rw [h1]
          show dlookup d' k = child_value n
          rw [hrec, hself, hcv]
        | cons m ms =>
          rw [hl] at hrec
          rw [List.getLast?_cons_cons]
          cases hx : (m :: ms).getLast? with
          | none =>
            rw [List.getLast?_eq_none_iff] at hx
            exact absurd hx (List.cons_ne_nil m ms)
          | some x =>
            rw [hx] at hrec
            exact hrec
      · have hbeq : (normalize_name n.nodeName == k) = false := by
          rw [beq_eq_false_iff_ne]
          exact hk
        rw [List.filter_cons, hbeq]
        simp only [Bool.false_eq_true, if_false]
        cases hx : rest.filter (fun m => normalize_name m.nodeName == k) |>.getLast? with
        | none =>
          rw [hx] at hrec
          show dlookup d' k = dlookup d k
          rw [hrec]
          exact dlookup_dinsert_ne d (normalize_name n.nodeName) k v (fun he => hk he.symm)
        | some x =>
          rw [hx] at hrec
          exact hrec

/-- A successful `optMapM` run maps each input to the matching output,
elementwise and in order. -/
theorem optMapM_forall₂ {α β : Type} (f : α → Option β) :
    ∀ (xs : List α) (ys : List β), optMapM f xs = some ys →
      List.Forall₂ (fun x y => f x = some y) xs ys := by
  intro xs
  induction xs with
  | nil =>
    intro ys h
    rw [optMapM] at h
    cases h
    exact List.Forall₂.nil
  | cons a as ih =>
    intro ys h
    rw [optMapM] at h
    cases hf : f a with
    | none => rw [hf] at h; cases h
    | some b =>
      rw [hf] at h
      cases hm : optMapM f as with
      | none => rw [hm] at h; cases h
      | some bs =>
        rw [hm] at h
        cases h
        exact List.Forall₂.cons hf (ih _ hm)

/-! ### Filter lemmas -/

/-- Unfolding of `get_jobs` with the filter flag on. -/
theorem get_jobs_true_cons (U : String) (j : Dict) (rest : List Dict) :
    get_jobs true U (j :: rest) =
      match get_owner j with
      | none => none
      | some o =>
          if o = U then
            match get_jobs true U rest with
            | none => none
            | some l => some (j :: l)
          else get_jobs true U rest := rfl

/-- With the filter flag on, `get_jobs` succeeds on a snapshot whose
jobs all have a readable owner, and returns exactly the filter of the
snapshot by derived owner. -/
theorem get_jobs_filter_on (U : String) :
    ∀ S : List Dict, (∀ j ∈ S, (get_owner j).isSome = true) →
      get_jobs true U S = some (S.filter (fun j => get_owner j == some U)) := by
  intro S
  induction S with
  | nil => intro _; rfl
  | cons j rest ih =>
    intro h
    have hj := h j (List.mem_cons_self j rest)
    have hrest := ih (fun x hx => h x (List.mem_cons_of_mem j hx))
    cases ho : get_owner j with
    | none => rw [ho] at hj; cases hj
    | some o =>
      by_cases hU : o = U
      · simp [get_jobs_true_cons, ho, hrest, hU]
      · simp [get_jobs_true_cons, ho, hrest, hU]

/-! ### Controller state lemmas -/

theorem cancel_fields (s : QState) :
    (cancel_work_timer s).pendingTimers
        = s.pendingTimers - (if s.handlePending then 1 else 0)
    ∧ (cancel_work_timer s).handlePending = false
    ∧ (cancel_work_timer s).jobs = s.jobs
    ∧ (cancel_work_timer s).settings_own = s.settings_own
    ∧ (cancel_work_timer s).settings_auto_refresh = s.settings_auto_refresh
    ∧ (cancel_work_timer s).running = s.running
    ∧ (cancel_work_timer s).pollCount = s.pollCount := by
  cases hb : s.handlePending <;> simp [cancel_work_timer, hb]

theorem refresh_fields (s : QState) (env : Option XNode) :
    (except_state (refresh_data s env)).pendingTimers
        = s.pendingTimers + (if s.settings_auto_refresh then 1 else 0)
    ∧ (except_state (refresh_data s env)).handlePending
        = (s.settings_auto_refresh || s.handlePending)
    ∧ (except_state (refresh_data s env)).settings_auto_refresh
        = s.settings_auto_refresh
    ∧ (except_state (refresh_data s env)).settings_own = s.settings_own
    ∧ (except_state (refresh_data s env)).running = s.running
    ∧ (except_state (refresh_data s env)).pollCount = s.pollCount + 1 := by
  cases env with
  | none =>
    cases ha : s.settings_auto_refresh <;>
      simp [refresh_data, arm_timer, except_state, ha]
  | some root =>
    cases hp : parse root with
    | none =>
      cases ha : s.settings_auto_refresh <;>
        simp [refresh_data, arm_timer, except_state, ha, hp]
    | some js =>
      cases ha : s.settings_auto_refresh <;>
        simp [refresh_data, arm_timer, except_state, ha, hp]

/-- A refresh that raises did not assign `self.jobs`. -/
theorem refresh_error_jobs (s s2 : QState) (env : Option XNode)
    (h : refresh_data s env = Except.error s2) : s2.jobs = s.jobs := by
  cases env with
  | none =>
    cases ha : s.settings_auto_refresh <;>
      · simp [refresh_data, arm_timer, ha] at h
        simp [← h]
  | some root =>
    cases hp : parse root with
    | none =>
      cases ha : s.settings_auto_refresh <;>
        · simp [refresh_data, arm_timer, ha, hp] at h
          simp [← h]
    | some js =>
      cases ha : s.settings_auto_refresh <;>
        simp [refresh_data, arm_timer, ha, hp] at h

/-- A refresh that obtained a parseable document replaces `self.jobs`
with the parsed list. -/
theorem refresh_ok_jobs (s : QState) (root : XNode) (js : List Dict)
    (hp : parse root = some js) :
    (except_state (refresh_data s (some root))).jobs = js := by
  cases ha : s.settings_auto_refresh <;>
    simp [refresh_data, arm_timer, except_state, ha, hp]

theorem display_jobs_ok (s : QState) (root : XNode) (js : List Dict)
    (hp : parse root = some js) :
    (except_state (display_header s (some root))).jobs = js :=
  refresh_ok_jobs (cancel_work_timer s) root js hp

theorem display_fields (s : QState) (env : Option XNode) :
    (except_state (display_header s env)).pendingTimers
        = (s.pendingTimers - (if s.handlePending then 1 else 0))
            + (if s.settings_auto_refresh then 1 else 0)
    ∧ (except_state (display_header s env)).handlePending
        = s.settings_auto_refresh
    ∧ (except_state (display_header s env)).settings_auto_refresh
        = s.settings_auto_refresh
    ∧ (except_state (display_header s env)).settings_own = s.settings_own
    ∧ (except_state (display_header s env)).running = s.running
    ∧ (except_state (display_header s env)).pollCount = s.pollCount + 1 := by
  obtain ⟨c1, c2, _, c4, c5, c6, c7⟩ := cancel_fields s
  obtain ⟨r1, r2, r3, r4, r5, r6⟩ := refresh_fields (cancel_work_timer s) env
  refine ⟨?_, ?_, ?_, ?_, ?_, ?_⟩ <;>
    simp [display_header, r1, r2, r3, r4, r5, r6, c1, c2, c4, c5, c6, c7]

/-! ### The single-outstanding-timer invariant -/

/-- Timer bookkeeping invariant: the handle's timer is the only live
timer; while the loop runs, a timer is pending exactly when auto-refresh
is enabled; after quitting nothing is pending. -/
def TimerInv (s : QState) : Prop :=
  s.pendingTimers = (if s.handlePending then 1 else 0)
  ∧ (s.running = true → s.settings_auto_refresh = s.handlePending)
  ∧ (s.running = false → s.handlePending = false)

theorem refresh_inv (t : QState) (env : Option XNode)
    (hpend : t.pendingTimers = 0) (hhandle : t.handlePending = false)
    (hrun : t.running = true) :
    TimerInv (except_state (refresh_data t env)) := by
  obtain ⟨r1, r2, r3, _, r5, _⟩ := refresh_fields t env
  refine ⟨?_, ?_, ?_⟩
  · rw [r1, r2, hpend, hhandle, Bool.or_false]
    cases t.settings_auto_refresh <;> simp
  · intro _
    rw [r2, r3, hhandle, Bool.or_false]
  · intro hr
    rw [r5, hrun] at hr
    cases hr

theorem display_inv (s : QState) (env : Option XNode)
    (hpend : s.pendingTimers = (if s.handlePending then 1 else 0))
    (hrun : s.running = true) :
    TimerInv (except_state (display_header s env)) := by
  obtain ⟨c1, c2, _, _, _, c6, _⟩ := cancel_fields s
  refine refresh_inv (cancel_work_timer s) env ?_ c2 (by rw [c6]; exact hrun)
  rw [c1, hpend]
  cases s.handlePending <;> simp

/-- Every reachable controller state satisfies the timer invariant. -/
theorem reachable_inv : ∀ s : QState, Reachable s → TimerInv s := by
  intro s h
  induction h with
  | startup env => exact display_inv init_state env rfl rfl
  | @step s0 ev env _ henabled ih =>
    obtain ⟨i1, i2, i3⟩ := ih
    cases ev with
    | keyA =>
      exact display_inv { s0 with settings_auto_refresh := !s0.settings_auto_refresh }
        env i1 henabled
    | keyU =>
      exact display_inv { s0 with settings_own := !s0.settings_own } env i1 henabled
    | keyR => exact display_inv s0 env i1 henabled
    | keyQ =>
      obtain ⟨c1, c2, _, _, _, _, _⟩ := cancel_fields s0
      refine ⟨?_, ?_, ?_⟩
      · show (cancel_work_timer s0).pendingTimers
            = (if (cancel_work_timer s0).handlePending then 1 else 0)
        rw [c1, c2, i1]
        cases s0.handlePending <;> simp
      · intro hr
        have hfalse : (handle_event Ev.keyQ env s0).running = false := rfl
        rw [hfalse] at hr
        cases hr
      · intro _
        show (cancel_work_timer s0).handlePending = false
        exact c2
    | fireHandle =>
      have hhp : s0.handlePending = true := henabled
      have hrun : s0.running = true := by
        cases hr : s0.running with
        | true => rfl
        | false => rw [i3 hr] at hhp; cases hhp
      refine refresh_inv _ env ?_ rfl hrun
      show s0.pendingTimers - 1 = 0
      rw [i1, hhp]
      rfl
    | fireOrphan =>
      have hlt : (if s0.handlePending then 1 else 0) < s0.pendingTimers :=
        of_decide_eq_true henabled
      rw [i1] at hlt
      exact absurd hlt (lt_irrefl _)

/-! ### Claim C1 -/

/-- A well-formed document with one per-job element whose children
include a whitespace text node (as pretty-printed XML has): the text
node has no child nodes, so `parse_job` raises `IndexError`. -/
def c1_whitespace_doc : XNode :=
  XNode.elem "Data"
    [XNode.elem "Job" [XNode.text "  ", XNode.elem "Job_Id" [XNode.text "1"]]]

/-- Claim C1, counterexample: a well-formed document with exactly one
per-job element on which `parse` raises instead of returning a
one-element list — refuting "for every well-formed input document ...
parse returns a list of exactly N Job records". -/
theorem c1_counterexample :
    (elements_by_tag "Job" [c1_whitespace_doc]).length = 1
    ∧ parse c1_whitespace_doc = none :=
  ⟨rfl, rfl⟩

/-- Claim C1, amended: whenever `parse` returns a list, it has exactly
one Job record per per-job element found anywhere in the document, in
document order, each record being the `parse_job` of the corresponding
element; `parse` can instead raise on well-formed documents containing
a per-job element with a childless child node. -/
theorem c1_parse_document_order (root : XNode) (jobs : List Dict)
    (h : parse root = some jobs) :
    jobs.length = (elements_by_tag "Job" [root]).length
    ∧ List.Forall₂ (fun e j => parse_job e = some j)
        (elements_by_tag "Job" [root]) jobs := by
  have hf := optMapM_forall₂ parse_job (elements_by_tag "Job" [root]) jobs h
  exact ⟨hf.length_eq.symm, hf⟩

/-- A document with two per-job elements at different nesting depths. -/
def c1_ok_doc : XNode :=
  XNode.elem "Data"
    [XNode.elem "Job" [XNode.elem "Job_Id" [XNode.text "1"]],
     XNode.elem "Batch" [XNode.elem "Job" [XNode.elem "Job_Id" [XNode.text "2"]]]]

/-- Claim C1, witness: the amended statement at a concrete two-job
document with one job nested one level deeper than the other. -/
theorem c1_parse_document_order_witness :
    parse c1_ok_doc
      = some [[("job_id", JobValue.leaf "1")], [("job_id", JobValue.leaf "2")]]
    ∧ ([[("job_id", JobValue.leaf "1")], [("job_id", JobValue.leaf "2")]] : List Dict).length
        = (elements_by_tag "Job" [c1_ok_doc]).length
    ∧ List.Forall₂ (fun e j => parse_job e = some j) (elements_by_tag "Job" [c1_ok_doc])
        [[("job_id", JobValue.leaf "1")], [("job_id", JobValue.leaf "2")]] :=
  ⟨rfl, (c1_parse_document_order c1_ok_doc _ rfl).1,
    (c1_parse_document_order c1_ok_doc _ rfl).2⟩

/-! ### Claim C2 -/

/-- Claim C2: the owner accessor strips the host suffix after `@`, but
on a raw owner without `@` it does not return the string unchanged:
`o.find('@')` returns `-1`, so `o[:o.find('@')]` drops the last
character and `get_owner` of `"bob"` is `"bo"`, not `"bob"`. -/
theorem c2_owner_no_at_drops_last_char :
    get_owner [("job_owner", JobValue.leaf "alice@node03")] = some "alice"
    ∧ get_owner [("job_owner", JobValue.leaf "bob")] = some "bo"
    ∧ get_owner [("job_owner", JobValue.leaf "bob")] ≠ some "bob" := by
  decide

/-! ### Claim C3 -/

/-- A job dictionary whose `resources_used.mem` leaf is `raw`. -/
def mem_job (raw : String) : Dict :=
  [("resources_used", JobValue.nested [("mem", JobValue.leaf raw)])]

/-- Claim C3, counterexample: the comparisons in `get_memory` are
strict, so `"1024kb"` stays in the kB branch, and that branch divides
by `1024.` before formatting, so `"1024kb"` and `"1023kb"` both render
as `"1.0 kB"` — refuting the claimed `"1.0 MB"` and `"1023.0 kB"`. -/
theorem c3_counterexample :
    get_memory (mem_job "1024kb") = some "1.0 kB"
    ∧ get_memory (mem_job "1024kb") ≠ some "1.0 MB"
    ∧ get_memory (mem_job "1023kb") = some "1.0 kB"
    ∧ get_memory (mem_job "1023kb") ≠ some "1023.0 kB" := by
  decide

/-- Claim C3, amended: the memory accessor discards the last two
characters, reads the numeric prefix as kilobytes, and promotes units
only on strictly-greater comparisons (`> 1024²` to GB, `> 1024` to MB);
the remaining kB branch also divides the value by 1024 before
formatting with one decimal place, so `"512kb" → "0.5 kB"`,
`"2048kb" → "2.0 MB"`, `"3145728kb" → "3.0 GB"`, and both `"1024kb"`
and `"1023kb"` render as `"1.0 kB"`. -/
theorem c3_memory_format :
    get_memory (mem_job "512kb") = some "0.5 kB"
    ∧ get_memory (mem_job "2048kb") = some "2.0 MB"
    ∧ get_memory (mem_job "3145728kb") = some "3.0 GB"
    ∧ get_memory (mem_job "1024kb") = some "1.0 kB"
    ∧ get_memory (mem_job "1023kb") = some "1.0 kB" := by
  decide

/-! ### Claim C4 -/

/-- Claim C4: when a per-job element has duplicate (case-normalised)
child tags, the parsed record binds that field to the value derived
from the last such sibling in document order; the binding is a single
`JobValue`, never a sequence. -/
theorem c4_last_wins (t : String) (cs : List XNode) (d : Dict) (k : String)
    (n : XNode)
    (hparse : parse_job (XNode.elem t cs) = some d)
    (_hdup : 2 ≤ (cs.filter (fun m => normalize_name m.nodeName == k)).length)
    (hlast : (cs.filter (fun m => normalize_name m.nodeName == k)).getLast? = some n) :
    dlookup d k = child_value n := by
  have h0 : parse_children [] cs = some d := hparse
  have hlk := parse_children_lookup k cs [] d h0
  rw [hlast] at hlk
  exact hlk

/-- Children of a per-job element with a duplicated `queue` tag
(`Queue` normalises to `queue`). -/
def c4_children : List XNode :=
  [XNode.elem "queue" [XNode.text "batch"], XNode.elem "Queue" [XNode.text "fast"]]

/-- Claim C4, witness: on the duplicated-`queue` element the parse
succeeds and the `queue` binding is the last sibling's value. -/
theorem c4_last_wins_witness :
    parse_job (XNode.elem "Job" c4_children) = some [("queue", JobValue.leaf "fast")]
    ∧ 2 ≤ (c4_children.filter (fun m => normalize_name m.nodeName == "queue")).length
    ∧ (c4_children.filter (fun m => normalize_name m.nodeName == "queue")).getLast?
        = some (XNode.elem "Queue" [XNode.text "fast"])
    ∧ dlookup [("queue", JobValue.leaf "fast")] "queue"
        = child_value (XNode.elem "Queue" [XNode.text "fast"]) :=
  ⟨rfl, by decide, rfl,
    c4_last_wins "Job" c4_children [("queue", JobValue.leaf "fast")] "queue"
      (XNode.elem "Queue" [XNode.text "fast"]) rfl (by decide) rfl⟩

/-! ### Claim C5 -/

/-- Claim C5: contrary to the claim, `parse_job` is not total on
well-formed element trees — a child element with no children of its own
is not skipped; `node.childNodes[0]` is evaluated before any emptiness
check, so the parse raises `IndexError` (the `len(node.childNodes) > 0`
guard in the source is unreachable as a guard). -/
theorem c5_childless_child_raises :
    parse_job (XNode.elem "Job" [XNode.elem "empty" []]) = none := rfl

/-! ### Claim C6 -/

/-- Claim C6: on a snapshot whose jobs all expose a derived owner, the
filter (`get_jobs` with the flag on) returns exactly the subsequence of
jobs whose derived owner equals the current user, in the original
order, and reapplying it to its own output changes nothing. -/
theorem c6_filter_property (S : List Dict) (U : String)
    (h : ∀ j ∈ S, (get_owner j).isSome = true) :
    get_jobs true U S = some (S.filter (fun j => get_owner j == some U))
    ∧ (S.filter (fun j => get_owner j == some U)).Sublist S
    ∧ (∀ j ∈ S.filter (fun j => get_owner j == some U), get_owner j = some U)
    ∧ get_jobs true U (S.filter (fun j => get_owner j == some U))
        = some (S.filter (fun j => get_owner j == some U)) := by
  have h1 := get_jobs_filter_on U S h
  have hmem : ∀ j ∈ S.filter (fun j => get_owner j == some U), get_owner j = some U := by
    intro j hj
    exact eq_of_beq (List.mem_filter.mp hj).2
  have h2 := get_jobs_filter_on U (S.filter (fun j => get_owner j == some U))
    (fun j hj => by rw [hmem j hj]; rfl)
  have h3 : (S.filter (fun j => get_owner j == some U)).filter
        (fun j => get_owner j == some U)
      = S.filter (fun j => get_owner j == some U) :=
    List.filter_eq_self.mpr (fun j hj => by simp [hmem j hj])
  rw [h3] at h2
  exact ⟨h1, List.filter_sublist S, hmem, h2⟩

/-- A two-job snapshot with owners `alice@n1` and `bob@n2`. -/
def c6_snapshot : List Dict :=
  [[("job_owner", JobValue.leaf "alice@n1")],
   [("job_owner", JobValue.leaf "bob@n2")]]

/-- Claim C6, witness: the filter property at the two-job snapshot with
current user `alice`. -/
theorem c6_filter_property_witness :
    (∀ j ∈ c6_snapshot, (get_owner j).isSome = true)
    ∧ (get_jobs true "alice" c6_snapshot
          = some (c6_snapshot.filter (fun j => get_owner j == some "alice"))
       ∧ (c6_snapshot.filter (fun j => get_owner j == some "alice")).Sublist c6_snapshot
       ∧ (∀ j ∈ c6_snapshot.filter (fun j => get_owner j == some "alice"),
            get_owner j = some "alice")
       ∧ get_jobs true "alice" (c6_snapshot.filter (fun j => get_owner j == some "alice"))
          = some (c6_snapshot.filter (fun j => get_owner j == some "alice"))) :=
  ⟨by decide, c6_filter_property c6_snapshot "alice" (by decide)⟩

/-! ### Claim C7 -/

/-- A controller state with an empty snapshot, auto-refresh off and no
pending timer. -/
def c7_state : QState :=
  { jobs := [], settings_own := false, settings_auto_refresh := false,
    pendingTimers := 0, handlePending := false, running := true, pollCount := 0 }

/-- A parseable document with one job. -/
def c7_doc : XNode :=
  XNode.elem "Data" [XNode.elem "Job" [XNode.elem "Job_Owner" [XNode.text "alice@n1"]]]

/-- Claim C7, counterexample: handling `u` runs `display_header`, which
calls `refresh_data` — the external status command is invoked (the poll
counter advances) and the job list is replaced by the newly parsed
snapshot, refuting "does not invoke the external status command and
does not replace the current job list". -/
theorem c7_counterexample :
    (handle_event Ev.keyU (some c7_doc) c7_state).pollCount = c7_state.pollCount + 1
    ∧ (handle_event Ev.keyU (some c7_doc) c7_state).jobs ≠ c7_state.jobs :=
  ⟨rfl, fun h => absurd (congrArg List.length h) (by decide)⟩

/-- Claim C7, amended: handling `u` toggles the filter flag (leaving
the auto-refresh flag unchanged) and redraws via `display_header`,
which cancels any pending timer and performs a full `refresh_data`: the
external status command is invoked exactly once more, and when its
output parses the stored job list is replaced by the newly parsed
snapshot. -/
theorem c7_toggle_user_polls (s : QState) (root : XNode) (js : List Dict)
    (hp : parse root = some js) :
    (handle_event Ev.keyU (some root) s).settings_own = !s.settings_own
    ∧ (handle_event Ev.keyU (some root) s).settings_auto_refresh
        = s.settings_auto_refresh
    ∧ (handle_event Ev.keyU (some root) s).pollCount = s.pollCount + 1
    ∧ (handle_event Ev.keyU (some root) s).jobs = js := by
  obtain ⟨_, _, d3, d4, _, d6⟩ :=
    display_fields { s with settings_own := !s.settings_own } (some root)
  exact ⟨d4, d3, d6, display_jobs_ok { s with settings_own := !s.settings_own } root js hp⟩

/-- Claim C7, witness: the amended statement at the concrete state and
document of the counterexample. -/
theorem c7_toggle_user_polls_witness :
    parse c7_doc = some [[("job_owner", JobValue.leaf "alice@n1")]]
    ∧ ((handle_event Ev.keyU (some c7_doc) c7_state).settings_own
          = !c7_state.settings_own
       ∧ (handle_event Ev.keyU (some c7_doc) c7_state).settings_auto_refresh
          = c7_state.settings_auto_refresh
       ∧ (handle_event Ev.keyU (some c7_doc) c7_state).pollCount
          = c7_state.pollCount + 1
       ∧ (handle_event Ev.keyU (some c7_doc) c7_state).jobs
          = [[("job_owner", JobValue.leaf "alice@n1")]]) :=
  ⟨rfl, c7_toggle_user_polls c7_state c7_doc _ rfl⟩

/-! ### Claim C8 -/

/-- Claim C8: a refresh cycle that fails — the subprocess could not be
started or produced no well-formed document (`env = none`), or the
document failed to parse (`parse root = none`) — raises before
`self.jobs` is assigned, so the stored snapshot is exactly its previous
value. -/
theorem c8_failed_refresh_keeps_snapshot (s s2 : QState) (env : Option XNode)
    (h : refresh_data s env = Except.error s2) :
    s2.jobs = s.jobs :=
  refresh_error_jobs s s2 env h

/-- A controller state holding a one-job snapshot. -/
def c8_state : QState :=
  { jobs := [[("job_owner", JobValue.leaf "alice@n1")]], settings_own := false,
    settings_auto_refresh := false, pendingTimers := 0, handlePending := false,
    running := true, pollCount := 3 }

/-- Claim C8, witness: a failed poll (`env = none`) on the one-job
state leaves the stored snapshot untouched. -/
theorem c8_failed_refresh_keeps_snapshot_witness :
    refresh_data c8_state none = Except.error { c8_state with pollCount := 4 }
    ∧ ({ c8_state with pollCount := 4 } : QState).jobs = c8_state.jobs :=
  ⟨rfl, c8_failed_refresh_keeps_snapshot c8_state { c8_state with pollCount := 4 } none rfl⟩

/-! ### Claim C9 -/

/-- Claim C9: in every reachable controller state at most one scheduled
refresh is outstanding; while the loop runs with auto-refresh enabled
exactly one is outstanding; and whenever auto-refresh is disabled no
timer is pending — so no timer-fire event is enabled and none can fire
until auto-refresh is re-enabled (or a manual refresh re-arms one). -/
theorem c9_single_outstanding_timer (s : QState) (h : Reachable s) :
    s.pendingTimers ≤ 1
    ∧ (s.running = true → s.settings_auto_refresh = true → s.pendingTimers = 1)
    ∧ (s.settings_auto_refresh = false →
        s.pendingTimers = 0
        ∧ event_enabled Ev.fireHandle s = false
        ∧ event_enabled Ev.fireOrphan s = false) := by
  obtain ⟨i1, i2, i3⟩ := reachable_inv s h
  refine ⟨?_, ?_, ?_⟩
  · rw [i1]
    split <;> simp
  · intro hr ha
    have hh : s.handlePending = true := by
      rw [← i2 hr]
      exact ha
    rw [i1, hh]
    rfl
  · intro ha
    have hhf : s.handlePending = false := by
      cases hrun : s.running with
      | true => rw [← i2 hrun]; exact ha
      | false => exact i3 hrun
    refine ⟨by rw [i1, hhf]; rfl, hhf, ?_⟩
    show decide ((if s.handlePending then 1 else 0) < s.pendingTimers) = false
    rw [i1, hhf]
    rfl

/-- The controller state right after startup. -/
def c9_start : QState := except_state (display_header init_state none)

/-- Claim C9, witness: the timer invariant at the concrete post-startup
state. -/
theorem c9_single_outstanding_timer_witness :
    Reachable c9_start
    ∧ (c9_start.pendingTimers ≤ 1
       ∧ (c9_start.running = true → c9_start.settings_auto_refresh = true →
            c9_start.pendingTimers = 1)
       ∧ (c9_start.settings_auto_refresh = false →
            c9_start.pendingTimers = 0
            ∧ event_enabled Ev.fireHandle c9_start = false
            ∧ event_enabled Ev.fireOrphan c9_start = false)) :=
  ⟨Reachable.startup none,
    c9_single_outstanding_timer c9_start (Reachable.startup none)⟩

/-! ### Claim C10 -/

/-- Claim C10: the leaf-versus-nested decision for one child of a
per-job element looks only at the type of the child's first node: a
text first child makes the field that text node's content alone (any
further child nodes are ignored and not recursed into), and recursion
into a nested mapping happens only when the first child is not a text
node. -/
theorem c10_first_child_decides (d : Dict) (n : XNode) (rest : List XNode)
    (s : String) (rest2 : List XNode) :
    (n.childNodes = XNode.text s :: rest2 →
      parse_children d (n :: rest)
        = parse_children (dinsert d (normalize_name n.nodeName) (JobValue.leaf s)) rest)
    ∧ (∀ t2 cs2, n.childNodes = XNode.elem t2 cs2 :: rest2 →
      parse_children d (n :: rest)
        = match parse_job n with
          | none => none
          | some sub =>
              parse_children (dinsert d (normalize_name n.nodeName) (JobValue.nested sub)) rest) := by
  constructor
  · intro hn
    rw [parse_children, hn]
  · intro t2 cs2 hn
    rw [parse_children, hn]

/-- Claim C10, witness: a child whose first node is text parses to that
text alone even though a further (element) child follows. -/
theorem c10_first_child_decides_witness :
    parse_children []
        [XNode.elem "Job_Name" [XNode.text "x", XNode.elem "extra" [XNode.text "y"]]]
      = some [("job_name", JobValue.leaf "x")] :=
  ((c10_first_child_decides []
      (XNode.elem "Job_Name" [XNode.text "x", XNode.elem "extra" [XNode.text "y"]])
      [] "x" [XNode.elem "extra" [XNode.text "y"]]).1 rfl).trans rfl

end Qwatch
